import Mathlib

/-!
# Verification of the YT-Downloader core services

A shallow embedding, in Lean 4, of the core algorithms of the
YT-Downloader backend:

* the quality scorers and the stream analyzer
  (`backend/services/smart_selection.py`),
* the smart selection policy (`smart_select_best_option`),
* the bounded TTL cache (`backend/utils/cache.py`),
* the FFmpeg merge service (`backend/services/ffmpeg_service.py`),
* the smart-download merge orchestration (`backend/main.py`).

Python machine details that matter are made explicit: `dict` is modelled
as an insertion-ordered association list (assignment to an existing key
keeps its position, a fresh key is appended at the end), `min(...)` over
keys returns the first key attaining the minimum in insertion order, and
truthiness of optional string fields is modelled by `truthy`.
Timestamps are natural numbers; `time.time()` values are passed in
explicitly as a `now` argument.  File sizes are rationals
(`filesize / 1024 / 1024` is exact in ℚ; the Python floats involved are
only compared by `+`, which the claims consume as exact sums).
-/

namespace YT

/-- Truthiness of an optional string field, as Python evaluates
`hasattr(s, f) and s.f`: absent (`None`) and the empty string are falsy. -/
def truthy : Option String → Bool
  | none => false
  | some s => s ≠ ""

/-- The first maximal run of digits of a character list, if any: the
match of the regex `(\d+)` used by `re.search` in the source. -/
def firstDigitRun : List Char → Option (List Char)
  | [] => none
  | c :: cs => if c.isDigit then some (c :: cs.takeWhile Char.isDigit) else firstDigitRun cs

/-- `int(...)` on a run of decimal digits. -/
def digitsToNat (ds : List Char) : Nat :=
  ds.foldl (fun n c => n * 10 + (c.toNat - '0'.toNat)) 0

/-- `extract_resolution_number` from `smart_selection.py`: parse the first
run of digits of the resolution string, `0` when absent or digit-free. -/
def extract_resolution_number : Option String → Nat
  | none => 0
  | some s =>
    if s = "" then 0
    else match firstDigitRun s.data with
      | none => 0
      | some ds => digitsToNat ds

/-- `extract_audio_bitrate` from `smart_selection.py`: same digit-run
parse applied to the audio bitrate string. -/
def extract_audio_bitrate : Option String → Nat
  | none => 0
  | some s =>
    if s = "" then 0
    else match firstDigitRun s.data with
      | none => 0
      | some ds => digitsToNat ds

/-- Substring test, Python `pat in s`, at the character-list level:
`pat` is a prefix of some suffix of `s`. -/
def charsContain (s pat : List Char) : Bool :=
  match s with
  | [] => pat.isEmpty
  | _ :: rest => pat.isPrefixOf s || charsContain rest pat

/-- Python `s.lower()` at the character-list level. -/
def lowerChars (s : String) : List Char :=
  s.data.map Char.toLower

/-- A pytubefix stream descriptor, restricted to the attributes the core
algorithms read.  `includes_video`/`includes_audio` encode the
`progressive` / `only_video` / `only_audio` filter flags; optional string
attributes are `Option String` (with `none` for Python `None`); `fps = 0`
stands for an absent or zero frame rate and `filesize = 0` for an unknown
size, both falsy in the source's guards. -/
structure Stream where
  includes_video : Bool
  includes_audio : Bool
  resolution : Option String
  fps : Nat
  video_codec : Option String
  abr : Option String
  audio_codec : Option String
  filesize : Nat
  itag : Nat
deriving DecidableEq, Repr

/-- `calculate_video_quality_score` from `smart_selection.py`: resolution
tier base score, plus an fps bonus, plus a codec bonus (the
`QualityScores` tables of `app/config.py` supply the constants). -/
def calculate_video_quality_score (s : Stream) : Nat :=
  let resScore :=
    if truthy s.resolution then
      let r := extract_resolution_number s.resolution
      if r ≥ 2160 then 1000
      else if r ≥ 1440 then 800
      else if r ≥ 1080 then 600
      else if r ≥ 720 then 400
      else if r ≥ 480 then 200
      else r / 10
    else 0
  let fpsScore :=
    if s.fps ≠ 0 then
      if s.fps ≥ 60 then 50 else if s.fps ≥ 30 then 25 else 0
    else 0
  let codecScore :=
    if truthy s.video_codec then
      let c := lowerChars (s.video_codec.getD "")
      if charsContain c "av01".data then 30
      else if charsContain c "vp9".data then 20
      else if charsContain c "h264".data then 10
      else 0
    else 0
  resScore + fpsScore + codecScore

/-- `calculate_audio_quality_score` from `smart_selection.py`: bitrate
tier base score plus a codec bonus. -/
def calculate_audio_quality_score (s : Stream) : Nat :=
  let brScore :=
    if truthy s.abr then
      let b := extract_audio_bitrate s.abr
      if b ≥ 320 then 300
      else if b ≥ 256 then 250
      else if b ≥ 192 then 200
      else if b ≥ 128 then 150
      else if b ≥ 96 then 100
      else b
    else 0
  let codecScore :=
    if truthy s.audio_codec then
      let c := lowerChars (s.audio_codec.getD "")
      if charsContain c "opus".data then 25
      else if charsContain c "aac".data then 20
      else if charsContain c "mp3".data then 10
      else 0
    else 0
  brScore + codecScore

/-- `get_file_size_mb`: `filesize / (1024*1024)` when the size is known
and non-zero, else `0.0`; exact in ℚ. -/
def get_file_size_mb (s : Stream) : ℚ :=
  if s.filesize ≠ 0 then (s.filesize : ℚ) / (1024 * 1024) else 0

/-- The resolution tier a video stream's numeric resolution falls in
(5 highest). Tiers follow the cutoffs of `calculate_video_quality_score`. -/
def videoTier (r : Nat) : Nat :=
  if r ≥ 2160 then 5
  else if r ≥ 1440 then 4
  else if r ≥ 1080 then 3
  else if r ≥ 720 then 2
  else if r ≥ 480 then 1
  else 0

/-- The bitrate tier of an audio stream (5 highest), following the
cutoffs of `calculate_audio_quality_score`. -/
def audioTier (b : Nat) : Nat :=
  if b ≥ 320 then 5
  else if b ≥ 256 then 4
  else if b ≥ 192 then 3
  else if b ≥ 128 then 2
  else if b ≥ 96 then 1
  else 0

/-- `StreamAnalysis` from `smart_selection.py`: a stream together with
its category tag, quality score and size; `itag` is `str(stream.itag)`. -/
structure StreamAnalysis where
  stream : Stream
  stream_type : String
  quality_score : Nat
  size_mb : ℚ
  itag : String
deriving DecidableEq, Repr

/-- The `StreamAnalysis(stream, ty, score, size)` constructor, which sets
`itag = str(stream.itag)`. -/
def StreamAnalysis.make (s : Stream) (ty : String) (score : Nat) (size : ℚ) : StreamAnalysis :=
  ⟨s, ty, score, size, toString s.itag⟩

/-- `yt.streams.filter(progressive=True)` membership: muxed audio+video. -/
def isProgressive (s : Stream) : Bool := s.includes_video && s.includes_audio

/-- `yt.streams.filter(adaptive=True, only_video=True)` membership. -/
def isVideoOnly (s : Stream) : Bool := s.includes_video && !s.includes_audio

/-- `yt.streams.filter(only_audio=True)` membership. -/
def isAudioOnly (s : Stream) : Bool := s.includes_audio && !s.includes_video

/-- The per-stream loop-body executions of `analyze_streams`, in source
order: first the progressive pass, then the video-only pass, then the
audio-only pass, each pass iterating the raw collection in order. -/
def analysisSteps (streams : List Stream) : List (String × Stream) :=
  (streams.filter isProgressive).map (fun s => ("progressive", s))
    ++ (streams.filter isVideoOnly).map (fun s => ("video", s))
    ++ (streams.filter isAudioOnly).map (fun s => ("audio", s))

/-- Run the loop bodies of `analyze_streams` over a list of steps,
accumulating the three category lists exactly as the source appends:
video categories keep only streams with a truthy `resolution`, the audio
pass keeps every stream. -/
def runAnalysisSteps :
    List (String × Stream) →
    List StreamAnalysis × List StreamAnalysis × List StreamAnalysis
  | [] => ([], [], [])
  | (ty, s) :: rest =>
    let (ps, vs, as') := runAnalysisSteps rest
    if ty = "progressive" then
      (if truthy s.resolution then
        StreamAnalysis.make s "progressive" (calculate_video_quality_score s) (get_file_size_mb s) :: ps
       else ps, vs, as')
    else if ty = "video" then
      (ps,
       if truthy s.resolution then
        StreamAnalysis.make s "video" (calculate_video_quality_score s) (get_file_size_mb s) :: vs
       else vs, as')
    else
      (ps, vs,
       StreamAnalysis.make s "audio" (calculate_audio_quality_score s) (get_file_size_mb s) :: as')

/-- Insert into a descending-by-score list, after every element of
strictly greater score and before every element of equal or smaller
score. -/
def insertByScore (x : StreamAnalysis) : List StreamAnalysis → List StreamAnalysis
  | [] => [x]
  | y :: ys =>
    if x.quality_score < y.quality_score then y :: insertByScore x ys else x :: y :: ys

/-- Python's stable `list.sort(key=lambda x: x.quality_score,
reverse=True)`: descending by score, elements of equal score in their
original order.  A stable insertion sort computes exactly that list. -/
def sortByScore : List StreamAnalysis → List StreamAnalysis
  | [] => []
  | x :: xs => insertByScore x (sortByScore xs)

/-- `analyze_streams` from `smart_selection.py`.  The enumeration may
raise: pytubefix fetches the stream manifest on first access and lazy
per-stream attributes (e.g. `filesize`) may each issue a request.
`failAt = some n` models an exception raised while executing the `n`-th
loop body (0-based): the bodies before it have completed, the
`except` block logs and the partially accumulated, not yet sorted lists
are returned.  `failAt = none` is the normal run, which sorts each
category by descending quality score before returning. -/
def analyze_streams (streams : List Stream) (failAt : Option Nat) :
    List StreamAnalysis × List StreamAnalysis × List StreamAnalysis :=
  match failAt with
  | none =>
    let (ps, vs, as') := runAnalysisSteps (analysisSteps streams)
    (sortByScore ps, sortByScore vs, sortByScore as')
  | some n => runAnalysisSteps ((analysisSteps streams).take n)

/-- The selection plan dictionary returned by `smart_select_best_option`
(field `type` is `'merge'` or `'progressive'`; `audio_stream` and
`audio_itag` are `None` for progressive plans). -/
structure SmartOption where
  type : String
  video_stream : Stream
  audio_stream : Option Stream
  video_itag : String
  audio_itag : Option String
  estimated_size_mb : ℚ
  quality_description : String
  merge_required : Bool
deriving DecidableEq, Repr

/-- Python string interpolation of an optional string (`str(None)` is
`"None"`). -/
def optStr : Option String → String
  | none => "None"
  | some s => s

/-- The merge dictionary built at Option 1 of `smart_select_best_option`. -/
def mergePlan (bv ba : StreamAnalysis) : SmartOption :=
  { type := "merge"
    video_stream := bv.stream
    audio_stream := some ba.stream
    video_itag := bv.itag
    audio_itag := some ba.itag
    estimated_size_mb := bv.size_mb + ba.size_mb
    quality_description :=
      optStr bv.stream.resolution ++ " + "
        ++ (if truthy ba.stream.abr then optStr ba.stream.abr else "High Quality Audio")
    merge_required := true }

/-- The merge dictionary built at Option 3 (fallback) of
`smart_select_best_option`; only the description text differs. -/
def mergeFallbackPlan (bv ba : StreamAnalysis) : SmartOption :=
  { mergePlan bv ba with
    quality_description :=
      optStr bv.stream.resolution ++ " + "
        ++ (if truthy ba.stream.abr then optStr ba.stream.abr else "Audio") }

/-- The progressive dictionary built at Option 2 of
`smart_select_best_option`. -/
def progressivePlan (bp : StreamAnalysis) : SmartOption :=
  { type := "progressive"
    video_stream := bp.stream
    audio_stream := none
    video_itag := bp.itag
    audio_itag := none
    estimated_size_mb := bp.size_mb
    quality_description := optStr bp.stream.resolution ++ " (Progressive)"
    merge_required := false }

/-- The progressive dictionary built at Option 4 (last resort) of
`smart_select_best_option`. -/
def progressiveFallbackPlan (bp : StreamAnalysis) : SmartOption :=
  { progressivePlan bp with
    quality_description := optStr bp.stream.resolution ++ " (Progressive - Fallback)" }

/-- Option 2 of the decision policy: `prefer_progressive` is set, a
progressive candidate exists and its resolution is at least 720. -/
def selectOption2 (ps : List StreamAnalysis) (prefer_progressive : Bool) : Option SmartOption :=
  match prefer_progressive, ps with
  | true, bp :: _ =>
    if 720 ≤ extract_resolution_number bp.stream.resolution then some (progressivePlan bp)
    else none
  | _, _ => none

/-- Option 4 of the decision policy: any progressive candidate, quality
unconstrained. -/
def selectOption4 (ps : List StreamAnalysis) : Option SmartOption :=
  match ps with
  | bp :: _ => some (progressiveFallbackPlan bp)
  | [] => none

/-- `best_progressive_quality`: the numeric resolution of the best
progressive candidate, `0` when there is none. -/
def bestProgressiveRes (ps : List StreamAnalysis) : Nat :=
  match ps with
  | [] => 0
  | bp :: _ => extract_resolution_number bp.stream.resolution

/-- The decision policy of `smart_select_best_option`
(`smart_selection.py`, lines 273-358), taken as a function of the three
analyzed lists.  The Python comparison
`best_video_quality > best_progressive_quality * 1.5` on these integer
resolutions is the exact comparison `3 * pq < 2 * vq` (1.5 is exactly
representable and the products are far below 2^53). -/
def smart_select_from (ps vs as' : List StreamAnalysis) (prefer_progressive : Bool) :
    Option SmartOption :=
  match vs, as' with
  | bv :: _, ba :: _ =>
    let pq := bestProgressiveRes ps
    let vq := extract_resolution_number bv.stream.resolution
    if 3 * pq < 2 * vq ∨ pq < 720 then some (mergePlan bv ba)
    else
      match selectOption2 ps prefer_progressive with
      | some plan => some plan
      | none => some (mergeFallbackPlan bv ba)
  | _, _ =>
    match selectOption2 ps prefer_progressive with
    | some plan => some plan
    | none => selectOption4 ps

/-- `smart_select_best_option`: analyze, then apply the decision policy.
A failed enumeration (`failAt`) yields the partial analysis, which the
policy then consumes; the selection body itself raises nowhere. -/
def smart_select_best_option (streams : List Stream) (failAt : Option Nat)
    (prefer_progressive : Bool) : Option SmartOption :=
  let (ps, vs, as') := analyze_streams streams failAt
  smart_select_from ps vs as' prefer_progressive

/-! ## Concrete example streams, used by witnesses and counterexamples -/

/-- A 1080p video-only stream (itag 248-style). -/
def exVideo1080 : Stream :=
  { includes_video := true, includes_audio := false, resolution := some "1080p"
    fps := 30, video_codec := some "vp9", abr := none, audio_codec := none
    filesize := 104857600, itag := 248 }

/-- A 128kbps audio-only stream (itag 251-style). -/
def exAudio128 : Stream :=
  { includes_video := false, includes_audio := true, resolution := none
    fps := 0, video_codec := none, abr := some "128kbps", audio_codec := some "opus"
    filesize := 10485760, itag := 251 }

/-- A 480p progressive stream (itag 18-style). -/
def exProg480 : Stream :=
  { includes_video := true, includes_audio := true, resolution := some "480p"
    fps := 30, video_codec := some "h264", abr := some "96kbps", audio_codec := some "aac"
    filesize := 52428800, itag := 18 }

/-- A 480p video-only stream with the same fps and codec as
`exVideo720`. -/
def exVideo480 : Stream :=
  { exVideo1080 with resolution := some "480p", itag := 244 }

/-- A 720p video-only stream with the same fps and codec as
`exVideo480`. -/
def exVideo720 : Stream :=
  { exVideo1080 with resolution := some "720p", itag := 247 }

/-- A 96kbps audio-only stream with the same codec as `exAudio128`. -/
def exAudio96 : Stream :=
  { exAudio128 with abr := some "96kbps", itag := 250 }

/-- The analyzed record of `exVideo1080`, as the analyzer would build it. -/
def exVideo1080A : StreamAnalysis :=
  StreamAnalysis.make exVideo1080 "video" (calculate_video_quality_score exVideo1080)
    (get_file_size_mb exVideo1080)

/-- The analyzed record of `exAudio128`. -/
def exAudio128A : StreamAnalysis :=
  StreamAnalysis.make exAudio128 "audio" (calculate_audio_quality_score exAudio128)
    (get_file_size_mb exAudio128)

/-- The analyzed record of `exProg480`. -/
def exProg480A : StreamAnalysis :=
  StreamAnalysis.make exProg480 "progressive" (calculate_video_quality_score exProg480)
    (get_file_size_mb exProg480)

/-! ## Supporting lemmas for the scorer and the selection policy -/

/-- A positive extracted resolution forces the resolution field to be
truthy. -/
theorem truthy_of_res {o : Option String} (h : 0 < extract_resolution_number o) :
    truthy o = true := by
  cases o with
  | none => simp [extract_resolution_number] at h
  | some s =>
    by_cases hs : s = ""
    · subst hs; simp [extract_resolution_number] at h
    · simp [truthy, hs]

/-- A falsy bitrate field extracts to bitrate `0`. -/
theorem extract_abr_of_falsy {o : Option String} (h : truthy o = false) :
    extract_audio_bitrate o = 0 := by
  cases o with
  | none => rfl
  | some s =>
    by_cases hs : s = ""
    · subst hs; simp [extract_audio_bitrate]
    · simp [truthy, hs] at h

/-- Extracted bitrates of at least 96 force a truthy `abr` field. -/
theorem truthy_of_abr {o : Option String} (h : 0 < extract_audio_bitrate o) :
    truthy o = true := by
  cases o with
  | none => simp [extract_audio_bitrate] at h
  | some s =>
    by_cases hs : s = ""
    · subst hs; simp [extract_audio_bitrate] at h
    · simp [truthy, hs]

/-- A positive audio tier means a bitrate of at least 96. -/
theorem audio_tier_pos {b : Nat} (h : 0 < audioTier b) : 96 ≤ b := by
  unfold audioTier at h
  split_ifs at h <;> omega

/-- Monotonicity of the video base score across distinct resolution
tiers, given the lower stream is in a real tier. -/
theorem video_res_base_mono {r1 r2 : Nat} (h1 : 480 ≤ r1)
    (ht : videoTier r1 < videoTier r2) :
    (if r1 ≥ 2160 then 1000 else if r1 ≥ 1440 then 800 else if r1 ≥ 1080 then 600
      else if r1 ≥ 720 then 400 else if r1 ≥ 480 then 200 else r1 / 10)
    < (if r2 ≥ 2160 then 1000 else if r2 ≥ 1440 then 800 else if r2 ≥ 1080 then 600
      else if r2 ≥ 720 then 400 else if r2 ≥ 480 then 200 else r2 / 10) := by
  unfold videoTier at ht
  split_ifs at ht ⊢ <;> omega

/-- Monotonicity of the audio base score across distinct bitrate tiers
(tier 0 degrades to the raw bitrate, which stays below tier 1's base). -/
theorem audio_base_mono {b1 b2 : Nat} (ht : audioTier b1 < audioTier b2) :
    (if b1 ≥ 320 then 300 else if b1 ≥ 256 then 250 else if b1 ≥ 192 then 200
      else if b1 ≥ 128 then 150 else if b1 ≥ 96 then 100 else b1)
    < (if b2 ≥ 320 then 300 else if b2 ≥ 256 then 250 else if b2 ≥ 192 then 200
      else if b2 ≥ 128 then 150 else if b2 ≥ 96 then 100 else b2) := by
  unfold audioTier at ht
  split_ifs at ht ⊢ <;> omega

/-- Bitrates of at least 96 score at least the tier-1 base. -/
theorem audio_base_pos {b : Nat} (h : 96 ≤ b) :
    100 ≤ (if b ≥ 320 then 300 else if b ≥ 256 then 250 else if b ≥ 192 then 200
      else if b ≥ 128 then 150 else if b ≥ 96 then 100 else b) := by
  split_ifs <;> omega

/-- C8: the quality score is strictly monotonic across tiers with the
other inputs fixed: two video streams of identical fps and codec whose
resolutions (both at least 480) fall in distinct resolution tiers
compare strictly, and two audio streams of identical codec whose
bitrates fall in distinct bitrate tiers compare strictly. -/
theorem quality_score_tier_mono :
    (∀ s1 s2 : Stream, s1.fps = s2.fps → s1.video_codec = s2.video_codec →
      480 ≤ extract_resolution_number s1.resolution →
      480 ≤ extract_resolution_number s2.resolution →
      videoTier (extract_resolution_number s1.resolution)
        < videoTier (extract_resolution_number s2.resolution) →
      calculate_video_quality_score s1 < calculate_video_quality_score s2)
    ∧ (∀ s1 s2 : Stream, s1.audio_codec = s2.audio_codec →
      audioTier (extract_audio_bitrate s1.abr) < audioTier (extract_audio_bitrate s2.abr) →
      calculate_audio_quality_score s1 < calculate_audio_quality_score s2) := by
  constructor
  · intro s1 s2 hfps hcod h1 h2 ht
    have t1 : truthy s1.resolution = true := truthy_of_res (by omega)
    have t2 : truthy s2.resolution = true := truthy_of_res (by omega)
    unfold calculate_video_quality_score
    simp only [t1, t2, hfps, hcod, if_true]
    exact Nat.add_lt_add_right (Nat.add_lt_add_right (video_res_base_mono h1 ht) _) _
  · intro s1 s2 hcod ht
    have h96 : 96 ≤ extract_audio_bitrate s2.abr :=
      audio_tier_pos (lt_of_le_of_lt (Nat.zero_le _) ht)
    have t2 : truthy s2.abr = true := truthy_of_abr (by omega)
    unfold calculate_audio_quality_score
    simp only [hcod, t2, if_true]
    by_cases t1 : truthy s1.abr
    · simp only [t1, if_true]
      exact Nat.add_lt_add_right (audio_base_mono ht) _
    · have ht1 : truthy s1.abr = false := by simpa using t1
      have hb1 : extract_audio_bitrate s1.abr = 0 := extract_abr_of_falsy ht1
      have hbase := audio_base_pos h96
      simp only [ht1, Bool.false_eq_true, if_false]
      omega

/-- C8 witness: a 480p and a 720p video stream of equal fps/codec, and a
96kbps and a 128kbps audio stream of equal codec, compare strictly. -/
theorem quality_score_tier_mono_witness :
    calculate_video_quality_score exVideo480 < calculate_video_quality_score exVideo720
    ∧ calculate_audio_quality_score exAudio96 < calculate_audio_quality_score exAudio128 :=
  ⟨quality_score_tier_mono.1 exVideo480 exVideo720 rfl rfl (by decide) (by decide) (by decide),
   quality_score_tier_mono.2 exAudio96 exAudio128 rfl (by decide)⟩

/-- C1: whenever both the video-only and the audio-only lists are
non-empty and the best video-only resolution exceeds 1.5 times the best
progressive resolution (0 when no progressive candidate exists) or the
best progressive resolution is below 720, the selection returns a merge
plan pairing the heads of the two lists, with estimated size the sum of
their sizes and `merge_required` set. -/
theorem smart_select_rule1_merge
    (ps vs as' : List StreamAnalysis) (prefer : Bool)
    (bv ba : StreamAnalysis) (vrest arest : List StreamAnalysis)
    (hv : vs = bv :: vrest) (ha : as' = ba :: arest)
    (hcond : 3 * bestProgressiveRes ps < 2 * extract_resolution_number bv.stream.resolution
      ∨ bestProgressiveRes ps < 720) :
    ∃ plan, smart_select_from ps vs as' prefer = some plan
      ∧ plan.type = "merge"
      ∧ plan.merge_required = true
      ∧ plan.video_stream = bv.stream
      ∧ plan.audio_stream = some ba.stream
      ∧ plan.video_itag = bv.itag
      ∧ plan.audio_itag = some ba.itag
      ∧ plan.estimated_size_mb = bv.size_mb + ba.size_mb := by
  subst hv ha
  refine ⟨mergePlan bv ba, ?_, rfl, rfl, rfl, rfl, rfl, rfl, rfl⟩
  simp only [smart_select_from]
  rw [if_pos hcond]

/-- C1 witness: a 1080p best video-only, a 480p best progressive and
`prefer_progressive = false` produce a merge plan (rule 1 fires since
480 < 720). -/
theorem smart_select_rule1_merge_witness :
    ∃ plan, smart_select_from [exProg480A] [exVideo1080A] [exAudio128A] false = some plan
      ∧ plan.type = "merge"
      ∧ plan.merge_required = true
      ∧ plan.video_stream = exVideo1080A.stream
      ∧ plan.audio_stream = some exAudio128A.stream
      ∧ plan.video_itag = exVideo1080A.itag
      ∧ plan.audio_itag = some exAudio128A.itag
      ∧ plan.estimated_size_mb = exVideo1080A.size_mb + exAudio128A.size_mb :=
  smart_select_rule1_merge [exProg480A] [exVideo1080A] [exAudio128A] false
    exVideo1080A exAudio128A [] [] rfl rfl (by decide)

/-- The Option-2/Option-4 fallthrough returns `None` exactly when there
is no progressive candidate at all. -/
theorem select_fallback_none_iff (ps : List StreamAnalysis) (prefer : Bool) :
    (match selectOption2 ps prefer with
      | some plan => some plan
      | none => selectOption4 ps) = none ↔ ps = [] := by
  cases ps with
  | nil => cases prefer <;> simp [selectOption2, selectOption4]
  | cons bp rest =>
    cases prefer with
    | false => simp [selectOption2, selectOption4]
    | true =>
      simp only [selectOption2, selectOption4]
      split <;> simp

/-- C2 counterexample: an input with an empty progressive list, one
video-only candidate and no audio-only candidate is non-empty, yet the
selection returns `None`. -/
theorem smart_select_none_on_nonempty_input :
    smart_select_from [] [exVideo1080A] [] false = none
      ∧ ([exVideo1080A] : List StreamAnalysis) ≠ [] :=
  ⟨rfl, by simp⟩

/-- C2 (amended): the selection returns `None` iff the progressive list
is empty and the video-only or the audio-only list is empty; a plan is
guaranteed only when a progressive candidate exists or both adaptive
lists are non-empty (a lone video-only or audio-only list yields
`None`). -/
theorem smart_select_none_iff
    (ps vs as' : List StreamAnalysis) (prefer : Bool) :
    smart_select_from ps vs as' prefer = none ↔ ps = [] ∧ (vs = [] ∨ as' = []) := by
  cases vs with
  | nil =>
    simpa using select_fallback_none_iff ps prefer
  | cons bv vrest =>
    cases as' with
    | nil =>
      simpa using select_fallback_none_iff ps prefer
    | cons ba arest =>
      simp only [smart_select_from]
      constructor
      · intro h
        exfalso
        revert h
        split
        · simp
        · split <;> simp
      · rintro ⟨-, h | h⟩ <;> simp at h

/-- C9 counterexample: an enumeration that raises while the second
stream is processed (pytubefix lazy attributes such as `filesize` issue
their own requests) returns the first stream's analysis, not three empty
lists. -/
theorem analyze_streams_partial_not_empty :
    analyze_streams [exProg480, exVideo1080] (some 1)
      ≠ (([], [], []) :
        List StreamAnalysis × List StreamAnalysis × List StreamAnalysis) := by
  decide

/-- C9 (amended): the analyzer is a total function (it never
propagates an exception); on an empty raw stream list it returns three
empty lists whatever the failure point, and an enumeration failing
before any stream was processed also yields three empty lists.  A
failure after `n` completed loop bodies returns exactly the partial
accumulations of those bodies (unsorted), not necessarily empty. -/
theorem analyze_streams_total_empty :
    (∀ failAt, analyze_streams [] failAt = ([], [], []))
    ∧ (∀ streams, analyze_streams streams (some 0) = ([], [], []))
    ∧ (∀ streams n, analyze_streams streams (some n)
        = runAnalysisSteps ((analysisSteps streams).take n)) := by
  refine ⟨?_, fun streams => rfl, fun streams n => rfl⟩
  intro failAt
  cases failAt with
  | none => rfl
  | some n => simp [analyze_streams, analysisSteps, runAnalysisSteps]

/-! ## The bounded TTL cache (`backend/utils/cache.py`)

Python's `dict` is insertion-ordered: assignment to an existing key
keeps its position, a fresh key is appended at the end, and iteration
(`keys()`, `items()`) follows that order.  The dict is modelled as an
association list in insertion order. -/

/-- One cache entry, the `{'timestamp': ..., 'data': ...}` dict;
timestamps are the `time.time()` values passed in as `now`. -/
structure CacheEntry (α : Type) where
  timestamp : Nat
  data : α
deriving DecidableEq, Repr

/-- `key in d` / `d[key]` on the insertion-ordered dict. -/
def lookupKey (key : String) : List (String × CacheEntry α) → Option (CacheEntry α)
  | [] => none
  | (k, e) :: rest => if k = key then some e else lookupKey key rest

/-- `del d[key]`: remove the entry under `key` (the first match). -/
def eraseKey (key : String) : List (String × CacheEntry α) → List (String × CacheEntry α)
  | [] => []
  | (k, e) :: rest => if k = key then rest else (k, e) :: eraseKey key rest

/-- `d[key] = e`: overwrite in place when present, else append. -/
def insertDict (key : String) (e : CacheEntry α) :
    List (String × CacheEntry α) → List (String × CacheEntry α)
  | [] => [(key, e)]
  | (k, e') :: rest => if k = key then (k, e) :: rest else (k, e') :: insertDict key e rest

/-- One comparison step of Python's `min`: a later element replaces the
current best only when strictly smaller, so the first minimum in
iteration order is kept. -/
def minStep (acc : Option (String × CacheEntry α)) (p : String × CacheEntry α) :
    Option (String × CacheEntry α) :=
  match acc with
  | none => some p
  | some b => if p.2.timestamp < b.2.timestamp then some p else some b

/-- `min(d.keys(), key=lambda k: d[k]['timestamp'])` together with its
entry: Python's `min` keeps the first iterated element attaining the
minimum. -/
def oldestPair (m : List (String × CacheEntry α)) : Option (String × CacheEntry α) :=
  m.foldl minStep none

/-- The `CacheManager` state: configuration, the dict and the `_stats`
counters. -/
structure CacheManager (α : Type) where
  ttl : Nat
  max_size : Nat
  cache : List (String × CacheEntry α)
  hits : Nat
  misses : Nat
  stores : Nat
  cleanups : Nat
  evictions : Nat
deriving DecidableEq, Repr

/-- `CacheManager(ttl, max_size)`: empty dict, zeroed counters. -/
def CacheManager.init (ttl max_size : Nat) : CacheManager α :=
  ⟨ttl, max_size, [], 0, 0, 0, 0, 0⟩

/-- `CacheManager.get`: a present entry with `now - timestamp < ttl` is
a hit returning its data; a present stale entry is deleted and counted
as a miss; an absent key is a miss.  (`now - timestamp` on ℕ truncates
at zero exactly as the Python float difference stays below any positive
`ttl` when the clock ran backwards.) -/
def CacheManager.get (c : CacheManager α) (now : Nat) (key : String) :
    Option α × CacheManager α :=
  match lookupKey key c.cache with
  | some e =>
    if now - e.timestamp < c.ttl then
      (some e.data, { c with hits := c.hits + 1 })
    else
      (none, { c with cache := eraseKey key c.cache, misses := c.misses + 1 })
  | none => (none, { c with misses := c.misses + 1 })

/-- `CacheManager._evict_oldest`: drop the entry with the smallest
timestamp (first such in insertion order); no-op on an empty dict. -/
def CacheManager.evictOldest (c : CacheManager α) : CacheManager α :=
  match oldestPair c.cache with
  | none => c
  | some (k, _) => { c with cache := eraseKey k c.cache, evictions := c.evictions + 1 }

/-- `CacheManager.set`: when `len(cache) >= max_size` first evict the
oldest entry — the check precedes the membership test, so it fires even
when `key` is already present — then store `{'timestamp': now, 'data':
data}` under `key` and count a store. -/
def CacheManager.set (c : CacheManager α) (now : Nat) (key : String) (data : α) :
    CacheManager α :=
  let c' := if c.max_size ≤ c.cache.length then c.evictOldest else c
  { c' with cache := insertDict key ⟨now, data⟩ c'.cache, stores := c'.stores + 1 }

/-- `CacheManager.cleanup_expired`: remove every entry with
`now - timestamp > ttl` (strict), return how many were removed, and
count one cleanup when any was. -/
def CacheManager.cleanup_expired (c : CacheManager α) (now : Nat) :
    Nat × CacheManager α :=
  let expired := c.cache.filter (fun q => decide (c.ttl < now - q.2.timestamp))
  let remaining := c.cache.filter (fun q => ! decide (c.ttl < now - q.2.timestamp))
  (expired.length,
    { c with cache := remaining,
             cleanups := if expired.length = 0 then c.cleanups else c.cleanups + 1 })

/-- Process a list of `(key, now, data)` store calls in order. -/
def setList (c : CacheManager α) : List (String × Nat × α) → CacheManager α
  | [] => c
  | (k, t, v) :: rest => setList (c.set t k v) rest

/-- The dict entry a `(key, now, data)` store call creates. -/
def entryOf (p : String × Nat × α) : String × CacheEntry α :=
  (p.1, ⟨p.2.1, p.2.2⟩)

/-! ## Association-list lemmas for the cache dict -/

/-- A key kept by a filter is still found, with the same entry. -/
theorem lookupKey_filter_of_keep {α : Type} (p : String × CacheEntry α → Bool)
    (key : String) (e : CacheEntry α) (m : List (String × CacheEntry α))
    (hm : lookupKey key m = some e) (hp : p (key, e) = true) :
    lookupKey key (m.filter p) = some e := by
  induction m with
  | nil => simp [lookupKey] at hm
  | cons q rest ih =>
    obtain ⟨k, e'⟩ := q
    by_cases hk : k = key
    · subst hk
      simp only [lookupKey, if_pos rfl] at hm
      cases hm
      simp [List.filter_cons, hp, lookupKey]
    · simp only [lookupKey, if_neg hk] at hm
      cases hkeep : p (k, e') <;>
        simp [List.filter_cons, hkeep, lookupKey, hk, ih hm]

/-- Inserting under a different key does not change what another key
finds. -/
theorem lookupKey_insertDict_ne {α : Type} (key k' : String) (e : CacheEntry α)
    (m : List (String × CacheEntry α)) (h : k' ≠ key) :
    lookupKey k' (insertDict key e m) = lookupKey k' m := by
  induction m with
  | nil => simp [insertDict, lookupKey, Ne.symm h]
  | cons q rest ih =>
    obtain ⟨k, e'⟩ := q
    by_cases hk : k = key
    · subst hk
      simp only [insertDict, if_pos rfl, lookupKey]
      rw [if_neg (by intro hh; exact h hh.symm), if_neg (by intro hh; exact h hh.symm)]
    · simp only [insertDict, if_neg hk, lookupKey]
      by_cases hk' : k = k' <;> simp [hk', ih]

/-- Overwriting a present key keeps the dict's length. -/
theorem length_insertDict_present {α : Type} (key : String) (e : CacheEntry α)
    (m : List (String × CacheEntry α)) (h : (lookupKey key m).isSome) :
    (insertDict key e m).length = m.length := by
  induction m with
  | nil => simp [lookupKey] at h
  | cons q rest ih =>
    obtain ⟨k, e'⟩ := q
    by_cases hk : k = key
    · simp [insertDict, hk]
    · simp only [lookupKey, if_neg hk] at h
      simp [insertDict, hk, ih h]

/-- `d[key] = e` grows the dict by at most one entry. -/
theorem length_insertDict_le {α : Type} (key : String) (e : CacheEntry α)
    (m : List (String × CacheEntry α)) :
    (insertDict key e m).length ≤ m.length + 1 := by
  induction m with
  | nil => simp [insertDict]
  | cons q rest ih =>
    obtain ⟨k, e'⟩ := q
    by_cases hk : k = key
    · simp [insertDict, hk]
    · simp only [insertDict, if_neg hk, List.length_cons]
      omega

/-- Storing a fresh key appends it at the end. -/
theorem insertDict_fresh {α : Type} (key : String) (e : CacheEntry α)
    (m : List (String × CacheEntry α)) (h : lookupKey key m = none) :
    insertDict key e m = m ++ [(key, e)] := by
  induction m with
  | nil => rfl
  | cons q rest ih =>
    obtain ⟨k, e'⟩ := q
    by_cases hk : k = key
    · simp [lookupKey, hk] at h
    · simp only [lookupKey, if_neg hk] at h
      simp [insertDict, hk, ih h]

/-- A key absent from the first part of a concatenation is looked up in
the second. -/
theorem lookupKey_append_of_none {α : Type} (key : String)
    (m1 m2 : List (String × CacheEntry α)) (h : lookupKey key m1 = none) :
    lookupKey key (m1 ++ m2) = lookupKey key m2 := by
  induction m1 with
  | nil => rfl
  | cons q rest ih =>
    obtain ⟨k, e'⟩ := q
    by_cases hk : k = key
    · simp [lookupKey, hk] at h
    · simp only [lookupKey, if_neg hk] at h
      simp [lookupKey, hk, ih h]

/-- Deleting the key a lookup would find shortens the dict by one. -/
theorem length_eraseKey_found {α : Type} (key : String)
    (m : List (String × CacheEntry α)) (h : (lookupKey key m).isSome) :
    (eraseKey key m).length + 1 = m.length := by
  induction m with
  | nil => simp [lookupKey] at h
  | cons q rest ih =>
    obtain ⟨k, e'⟩ := q
    by_cases hk : k = key
    · simp [eraseKey, hk]
    · simp only [lookupKey, if_neg hk] at h
      have := ih h
      simp only [eraseKey, if_neg hk, List.length_cons]
      omega

/-! ## Cache claims -/

/-- C6: `get` on a present, fresh entry (age strictly below `ttl`)
returns its data and increments exactly the hits counter, leaving the
dict untouched; on a present, stale entry (age at least `ttl`) it
deletes the entry and increments exactly the misses counter, returning
a miss; on an absent key it increments exactly the misses counter and
returns a miss. -/
theorem cache_get_spec {α : Type} :
    (∀ (c : CacheManager α) (now : Nat) (key : String) (e : CacheEntry α),
      lookupKey key c.cache = some e → now - e.timestamp < c.ttl →
      c.get now key = (some e.data, { c with hits := c.hits + 1 }))
    ∧ (∀ (c : CacheManager α) (now : Nat) (key : String) (e : CacheEntry α),
      lookupKey key c.cache = some e → c.ttl ≤ now - e.timestamp →
      c.get now key = (none, { c with cache := eraseKey key c.cache, misses := c.misses + 1 }))
    ∧ (∀ (c : CacheManager α) (now : Nat) (key : String),
      lookupKey key c.cache = none →
      c.get now key = (none, { c with misses := c.misses + 1 })) := by
  refine ⟨?_, ?_, ?_⟩
  · intro c now key e hmem hfresh
    simp [CacheManager.get, hmem, hfresh]
  · intro c now key e hmem hstale
    simp [CacheManager.get, hmem, Nat.not_lt.mpr hstale]
  · intro c now key hmem
    simp [CacheManager.get, hmem]

/-- A concrete cache with a single entry stored at time 0 under `"k"`. -/
def exCache : CacheManager Nat :=
  { ttl := 300, max_size := 10, cache := [("k", ⟨0, 42⟩)]
    hits := 3, misses := 4, stores := 1, cleanups := 0, evictions := 0 }

/-- C6 witness: on `exCache`, a `get` at time 10 hits, a `get` at time
300 expires the entry and misses, and a `get` of an absent key misses. -/
theorem cache_get_spec_witness :
    CacheManager.get exCache 10 "k"
      = (some 42, { exCache with hits := exCache.hits + 1 })
    ∧ CacheManager.get exCache 300 "k"
      = (none, { exCache with cache := eraseKey "k" exCache.cache,
                              misses := exCache.misses + 1 })
    ∧ CacheManager.get exCache 10 "absent"
      = (none, { exCache with misses := exCache.misses + 1 }) :=
  ⟨cache_get_spec.1 exCache 10 "k" ⟨0, 42⟩ (by decide) (by decide),
   (cache_get_spec.2).1 exCache 300 "k" ⟨0, 42⟩ (by decide) (by decide),
   (cache_get_spec.2).2 exCache 10 "absent" (by decide)⟩

/-- C10: for an entry whose age equals `ttl` exactly, the sweep
(`cleanup_expired`, strict `>`) keeps it while `get` (validity requires
strict `<`) treats it as expired: it removes the entry, counts one miss
and returns a miss.  So the entry survives a sweep yet misses on the
next `get`. -/
theorem cache_expiry_boundary {α : Type} (c : CacheManager α) (now : Nat)
    (key : String) (e : CacheEntry α)
    (hmem : lookupKey key c.cache = some e)
    (hage : now - e.timestamp = c.ttl) :
    lookupKey key (c.cleanup_expired now).2.cache = some e
    ∧ (c.get now key).1 = none
    ∧ (c.get now key).2.misses = c.misses + 1
    ∧ (c.get now key).2.hits = c.hits
    ∧ (c.get now key).2.cache = eraseKey key c.cache := by
  refine ⟨?_, ?_⟩
  · exact lookupKey_filter_of_keep _ key e c.cache hmem (by simp [hage])
  · have hstale : ¬ (now - e.timestamp < c.ttl) := by omega
    simp [CacheManager.get, hmem, hstale]

/-- C10 witness: with `ttl = 5` and an entry stored at time 0, at time 5
the sweep keeps the entry and the `get` misses, removing it. -/
theorem cache_expiry_boundary_witness :
    let c : CacheManager Nat := { exCache with ttl := 5 }
    lookupKey "k" (c.cleanup_expired 5).2.cache = some ⟨0, 42⟩
    ∧ (c.get 5 "k").1 = none
    ∧ (c.get 5 "k").2.misses = c.misses + 1
    ∧ (c.get 5 "k").2.hits = c.hits
    ∧ (c.get 5 "k").2.cache = eraseKey "k" c.cache :=
  cache_expiry_boundary { exCache with ttl := 5 } 5 "k" ⟨0, 42⟩ (by decide) (by decide)

/-- `set` never touches the hits and misses counters (it changes only
the dict, `stores` and possibly `evictions`). -/
theorem set_preserves_hits_misses {α : Type} (c : CacheManager α) (now : Nat)
    (key : String) (v : α) :
    (c.set now key v).hits = c.hits ∧ (c.set now key v).misses = c.misses := by
  unfold CacheManager.set CacheManager.evictOldest
  split
  · cases h : oldestPair c.cache with
    | none => exact ⟨rfl, rfl⟩
    | some p =>
      obtain ⟨k, e⟩ := p
      exact ⟨rfl, rfl⟩
  · exact ⟨rfl, rfl⟩

/-- C4 counterexample: `c4state` is at capacity (`max_size = 2`) and
holds keys `"a"` (older) and `"b"`; overwriting the already-present key
`"b"` evicts the unrelated key `"a"` and counts an eviction. -/
def c4state : CacheManager Nat :=
  { ttl := 300, max_size := 2, cache := [("a", ⟨0, 1⟩), ("b", ⟨1, 2⟩)]
    hits := 0, misses := 0, stores := 2, cleanups := 0, evictions := 0 }

/-- C4 counterexample: at maximum size, `set` on the present key `"b"`
evicts the other key `"a"`, refuting "overwrites without evicting any
other entry even when the cache is at its maximum size". -/
theorem cache_overwrite_evicts_at_capacity :
    (lookupKey "b" c4state.cache).isSome = true
    ∧ (lookupKey "a" c4state.cache).isSome = true
    ∧ lookupKey "a" ((c4state.set 2 "b" 9).cache) = none
    ∧ (c4state.set 2 "b" 9).evictions = c4state.evictions + 1 := by
  decide

/-- C4 (amended): overwriting a present key while the cache is below
capacity evicts nothing — every other key's entry is unchanged, the
eviction counter and the dict's size are unchanged — and `set` never
changes the hits or misses counters (at capacity, however, the
pre-insertion eviction fires even for an overwrite). -/
theorem cache_overwrite_below_capacity {α : Type} :
    (∀ (c : CacheManager α) (now : Nat) (key : String) (v : α),
      (lookupKey key c.cache).isSome → c.cache.length < c.max_size →
      (c.set now key v).cache = insertDict key ⟨now, v⟩ c.cache
      ∧ (c.set now key v).evictions = c.evictions
      ∧ (c.set now key v).cache.length = c.cache.length
      ∧ ∀ k', k' ≠ key → lookupKey k' (c.set now key v).cache = lookupKey k' c.cache)
    ∧ (∀ (c : CacheManager α) (now : Nat) (key : String) (v : α),
      (c.set now key v).hits = c.hits ∧ (c.set now key v).misses = c.misses) := by
  constructor
  · intro c now key v hmem hlen
    have hnoevict : ¬ (c.max_size ≤ c.cache.length) := by omega
    refine ⟨?_, ?_, ?_, ?_⟩
    · simp [CacheManager.set, hnoevict]
    · simp [CacheManager.set, hnoevict]
    · simp only [CacheManager.set, if_neg hnoevict]
      exact length_insertDict_present key ⟨now, v⟩ c.cache hmem
    · intro k' hk'
      simp only [CacheManager.set, if_neg hnoevict]
      exact lookupKey_insertDict_ne key k' ⟨now, v⟩ c.cache hk'
  · intro c now key v
    exact set_preserves_hits_misses c now key v

/-- C4 witness: below capacity (`max_size = 10`), overwriting `"k"` in
`exCache` leaves size, evictions, hits and misses unchanged. -/
theorem cache_overwrite_below_capacity_witness :
    (CacheManager.set exCache 7 "k" 99).cache = insertDict "k" ⟨7, 99⟩ exCache.cache
    ∧ (CacheManager.set exCache 7 "k" 99).evictions = exCache.evictions
    ∧ (CacheManager.set exCache 7 "k" 99).cache.length = exCache.cache.length
    ∧ (∀ k', k' ≠ "k" →
        lookupKey k' (CacheManager.set exCache 7 "k" 99).cache = lookupKey k' exCache.cache)
    ∧ (CacheManager.set exCache 7 "k" 99).hits = exCache.hits
    ∧ (CacheManager.set exCache 7 "k" 99).misses = exCache.misses := by
  have h := cache_overwrite_below_capacity.1 exCache 7 "k" 99 (by decide) (by decide)
  have h2 := cache_overwrite_below_capacity.2 exCache 7 "k" 99
  exact ⟨h.1, h.2.1, h.2.2.1, h.2.2.2, h2.1, h2.2⟩

/-! ## Capacity eviction (C5) -/

/-- `setList` distributes over concatenation. -/
theorem setList_append {α : Type} (l1 l2 : List (String × Nat × α)) (c : CacheManager α) :
    setList c (l1 ++ l2) = setList (setList c l1) l2 := by
  induction l1 generalizing c with
  | nil => rfl
  | cons p rest ih =>
    obtain ⟨k, t, v⟩ := p
    simp [setList, ih]

/-- A key no pair of the dict carries is not found. -/
theorem lookupKey_eq_none {α : Type} (key : String) (m : List (String × CacheEntry α))
    (h : ∀ p ∈ m, p.1 ≠ key) :
    lookupKey key m = none := by
  induction m with
  | nil => rfl
  | cons q rest ih =>
    obtain ⟨k, e⟩ := q
    simp only [lookupKey, if_neg (h (k, e) (List.mem_cons_self _ _))]
    exact ih (fun p hp => h p (List.mem_cons_of_mem _ hp))

/-- A pair present in the dict makes its key found. -/
theorem lookupKey_isSome_of_mem {α : Type} (k : String) (e : CacheEntry α)
    (m : List (String × CacheEntry α)) (h : (k, e) ∈ m) :
    (lookupKey k m).isSome := by
  induction m with
  | nil => simp at h
  | cons q rest ih =>
    obtain ⟨k', e'⟩ := q
    by_cases hk : k' = k
    · simp [lookupKey, hk]
    · rcases List.mem_cons.mp h with heq | hmem
      · cases heq; simp at hk
      · simp only [lookupKey, if_neg hk]
        exact ih hmem

/-- Filling an under-capacity cache with pairwise-distinct fresh keys
appends their entries in order, with no eviction and the configuration
unchanged. -/
theorem setList_fill {α : Type} (l : List (String × Nat × α)) (c : CacheManager α)
    (hlen : c.cache.length + l.length ≤ c.max_size)
    (hfresh : ∀ p ∈ l, lookupKey p.1 c.cache = none)
    (hkeys : l.Pairwise (fun p q => p.1 ≠ q.1)) :
    (setList c l).cache = c.cache ++ l.map entryOf
    ∧ (setList c l).max_size = c.max_size
    ∧ (setList c l).ttl = c.ttl := by
  induction l generalizing c with
  | nil => simp [setList]
  | cons p rest ih =>
    obtain ⟨k, t, v⟩ := p
    simp only [setList]
    have hnoevict : ¬ (c.max_size ≤ c.cache.length) := by
      simp only [List.length_cons] at hlen
      omega
    have hset : (c.set t k v).cache = c.cache ++ [(k, ⟨t, v⟩)] := by
      simp only [CacheManager.set, if_neg hnoevict]
      exact insertDict_fresh k ⟨t, v⟩ c.cache (hfresh (k, t, v) (List.mem_cons_self _ _))
    have hms : (c.set t k v).max_size = c.max_size := by
      simp [CacheManager.set, hnoevict]
    have httl : (c.set t k v).ttl = c.ttl := by
      simp [CacheManager.set, hnoevict]
    have hlen' : (c.set t k v).cache.length + rest.length ≤ (c.set t k v).max_size := by
      rw [hms, hset]
      simp only [List.length_append, List.length_cons, List.length_nil]
      simp only [List.length_cons] at hlen
      omega
    have hfresh' : ∀ q ∈ rest, lookupKey q.1 (c.set t k v).cache = none := by
      intro q hq
      have hqk : q.1 ≠ k :=
        Ne.symm ((List.pairwise_cons.mp hkeys).1 q hq)
      rw [hset, lookupKey_append_of_none _ _ _ (hfresh q (List.mem_cons_of_mem _ hq))]
      exact lookupKey_eq_none q.1 [(k, ⟨t, v⟩)] (by simpa using Ne.symm hqk)
    obtain ⟨h1, h2, h3⟩ :=
      ih (c.set t k v) hlen' hfresh' (List.pairwise_cons.mp hkeys).2
    refine ⟨?_, by rw [h2, hms], by rw [h3, httl]⟩
    rw [h1, hset]
    simp [entryOf]

/-- The `min` fold keeps an accumulator no later element strictly
beats. -/
theorem foldl_minStep_keep {α : Type} (m : List (String × CacheEntry α))
    (q : String × CacheEntry α)
    (hs : ∀ p ∈ m, ¬ p.2.timestamp < q.2.timestamp) :
    m.foldl minStep (some q) = some q := by
  induction m with
  | nil => rfl
  | cons p rest ih =>
    rw [List.foldl_cons]
    have : minStep (some q) p = some q := by
      simp [minStep, hs p (List.mem_cons_self _ _)]
    rw [this]
    exact ih (fun r hr => hs r (List.mem_cons_of_mem _ hr))

/-- `min` over a dict whose head carries a weakly smallest timestamp
returns the head (ties keep the earlier-inserted entry). -/
theorem oldestPair_head {α : Type} (q : String × CacheEntry α)
    (m : List (String × CacheEntry α))
    (hs : ∀ p ∈ m, q.2.timestamp ≤ p.2.timestamp) :
    oldestPair (q :: m) = some q := by
  unfold oldestPair
  rw [List.foldl_cons]
  exact foldl_minStep_keep m q (fun p hp => Nat.not_lt.mpr (hs p hp))

/-- Comparing against a current best yields the strictly smaller of the
two, the earlier one on ties. -/
theorem minStep_some {α : Type} (b p : String × CacheEntry α) :
    minStep (some b) p = some (if p.2.timestamp < b.2.timestamp then p else b) := by
  by_cases hlt : p.2.timestamp < b.2.timestamp <;> simp [minStep, hlt]

/-- The `min` fold of a non-empty dict yields a value. -/
theorem foldl_minStep_isSome {α : Type} (m : List (String × CacheEntry α))
    (b : String × CacheEntry α) :
    (m.foldl minStep (some b)).isSome := by
  induction m generalizing b with
  | nil => rfl
  | cons p rest ih =>
    rw [List.foldl_cons, minStep_some]
    exact ih _

/-- What the `min` fold returns is the accumulator or a list element. -/
theorem foldl_minStep_mem {α : Type} (m : List (String × CacheEntry α))
    (acc : Option (String × CacheEntry α)) (p : String × CacheEntry α)
    (h : m.foldl minStep acc = some p) :
    p ∈ m ∨ acc = some p := by
  induction m generalizing acc with
  | nil => exact Or.inr h
  | cons r rest ih =>
    rw [List.foldl_cons] at h
    rcases ih (minStep acc r) h with hm | hacc
    · exact Or.inl (List.mem_cons_of_mem _ hm)
    · cases acc with
      | none =>
        cases hacc
        exact Or.inl (List.mem_cons_self _ _)
      | some b =>
        rw [minStep_some] at hacc
        by_cases hlt : r.2.timestamp < b.2.timestamp
        · rw [if_pos hlt] at hacc
          cases hacc
          exact Or.inl (List.mem_cons_self _ _)
        · rw [if_neg hlt] at hacc
          exact Or.inr hacc

/-- The entry `min` selects belongs to the dict. -/
theorem oldestPair_mem {α : Type} (m : List (String × CacheEntry α))
    (p : String × CacheEntry α) (h : oldestPair m = some p) :
    p ∈ m := by
  rcases foldl_minStep_mem m none p h with hm | hacc
  · exact hm
  · cases hacc

/-- A `set` on a cache within its positive capacity keeps it within
capacity. -/
theorem set_length_le {α : Type} (c : CacheManager α) (now : Nat) (key : String) (v : α)
    (hpos : 0 < c.max_size) (hlen : c.cache.length ≤ c.max_size) :
    (c.set now key v).cache.length ≤ c.max_size := by
  unfold CacheManager.set
  by_cases h : c.max_size ≤ c.cache.length
  · rw [if_pos h]
    have hsome : (oldestPair c.cache).isSome := by
      cases hc : c.cache with
      | nil => rw [hc] at h; simp at h; omega
      | cons q rest =>
        unfold oldestPair
        rw [List.foldl_cons]
        exact foldl_minStep_isSome rest q
    obtain ⟨p, hp⟩ := Option.isSome_iff_exists.mp hsome
    have hmem : p ∈ c.cache := oldestPair_mem c.cache p hp
    obtain ⟨k, e⟩ := p
    have hfound : (lookupKey k c.cache).isSome := lookupKey_isSome_of_mem k e c.cache hmem
    have herase := length_eraseKey_found k c.cache hfound
    have hec : c.evictOldest.cache = eraseKey k c.cache := by
      unfold CacheManager.evictOldest
      rw [hp]
    show (insertDict key ⟨now, v⟩ c.evictOldest.cache).length ≤ c.max_size
    rw [hec]
    have hins := length_insertDict_le key (⟨now, v⟩ : CacheEntry α) (eraseKey k c.cache)
    omega
  · rw [if_neg h]
    have hins := length_insertDict_le key (⟨now, v⟩ : CacheEntry α) c.cache
    show (insertDict key ⟨now, v⟩ c.cache).length ≤ c.max_size
    omega

/-- C5 (amended): for a cache of positive capacity, storing
`max_size + 1` pairwise-distinct keys with nondecreasing timestamps into
a fresh cache leaves exactly `max_size` entries: the first key — one of
globally smallest insertion timestamp — is the single entry evicted, the
remaining entries survive in order and the new key sits at the end; and
a `set` on any cache within its positive capacity keeps it within
capacity.  (With `max_size = 0` both parts fail: see the
counterexample.) -/
theorem cache_capacity_eviction {α : Type} :
    (∀ (ttl max_size : Nat) (l : List (String × Nat × α)) (k : String) (t : Nat) (v : α),
      0 < max_size → l.length = max_size →
      (l ++ [(k, t, v)]).Pairwise (fun p q => p.1 ≠ q.1) →
      (l ++ [(k, t, v)]).Pairwise (fun p q => p.2.1 ≤ q.2.1) →
      ∃ q rest, l = q :: rest
        ∧ (setList (CacheManager.init ttl max_size) (l ++ [(k, t, v)])).cache
            = rest.map entryOf ++ [(k, ⟨t, v⟩)]
        ∧ (setList (CacheManager.init ttl max_size) (l ++ [(k, t, v)])).cache.length = max_size
        ∧ lookupKey q.1
            (setList (CacheManager.init ttl max_size) (l ++ [(k, t, v)])).cache = none
        ∧ ∀ p ∈ l ++ [(k, t, v)], q.2.1 ≤ p.2.1)
    ∧ (∀ (c : CacheManager α) (now : Nat) (key : String) (v : α),
      0 < c.max_size → c.cache.length ≤ c.max_size →
      (c.set now key v).cache.length ≤ c.max_size) := by
  refine ⟨?_, fun c now key v hpos hlen => set_length_le c now key v hpos hlen⟩
  intro ttl max_size l k t v hpos hlen hkeys htimes
  cases l with
  | nil => simp at hlen; omega
  | cons q rest =>
  obtain ⟨qk, qt, qv⟩ := q
  refine ⟨(qk, qt, qv), rest, rfl, ?_⟩
  have hkeys' : ((qk, qt, qv) :: (rest ++ [(k, t, v)])).Pairwise
      (fun p q => p.1 ≠ q.1) := by simpa using hkeys
  have htimes' : ((qk, qt, qv) :: (rest ++ [(k, t, v)])).Pairwise
      (fun (p q : String × Nat × α) => p.2.1 ≤ q.2.1) := by simpa using htimes
  have hheadkeys := (List.pairwise_cons.mp hkeys').1
  have hheadtimes := (List.pairwise_cons.mp htimes').1
  rw [setList_append]
  have hfill := setList_fill ((qk, qt, qv) :: rest) (CacheManager.init ttl max_size)
    (by simp only [List.length_cons] at hlen
        simp [CacheManager.init]
        omega)
    (fun p _ => rfl)
    ((List.pairwise_append.mp hkeys).1)
  obtain ⟨hcache1, hms1, _⟩ := hfill
  have hcache1' : (setList (CacheManager.init ttl max_size) ((qk, qt, qv) :: rest)).cache
      = (qk, ⟨qt, qv⟩) :: rest.map entryOf := by
    rw [hcache1]
    simp [CacheManager.init, entryOf]
  have hms1' : (setList (CacheManager.init ttl max_size) ((qk, qt, qv) :: rest)).max_size
      = max_size := by
    rw [hms1]
    rfl
  have hlen1 : (setList (CacheManager.init ttl max_size) ((qk, qt, qv) :: rest)).cache.length
      = max_size := by
    rw [hcache1']
    simp only [List.length_cons] at hlen
    simp [hlen]
  have hop : oldestPair
      (setList (CacheManager.init ttl max_size) ((qk, qt, qv) :: rest)).cache
      = some (qk, ⟨qt, qv⟩) := by
    rw [hcache1']
    apply oldestPair_head
    intro p hp
    obtain ⟨r, hr, hrp⟩ := List.mem_map.mp hp
    subst hrp
    exact hheadtimes r (List.mem_append_left _ hr)
  have hcond : (setList (CacheManager.init ttl max_size) ((qk, qt, qv) :: rest)).max_size
      ≤ (setList (CacheManager.init ttl max_size) ((qk, qt, qv) :: rest)).cache.length := by
    rw [hms1', hlen1]
  have hev : (setList (CacheManager.init ttl max_size) ((qk, qt, qv) :: rest)).evictOldest.cache
      = rest.map entryOf := by
    unfold CacheManager.evictOldest
    rw [hop]
    show eraseKey qk (setList (CacheManager.init ttl max_size) ((qk, qt, qv) :: rest)).cache
      = rest.map entryOf
    rw [hcache1']
    simp [eraseKey]
  have hfreshk : lookupKey k (rest.map entryOf) = none := by
    apply lookupKey_eq_none
    intro p hp
    obtain ⟨r, hr, hrp⟩ := List.mem_map.mp hp
    subst hrp
    exact (List.pairwise_append.mp hkeys).2.2 r (List.mem_cons_of_mem _ hr)
      (k, t, v) (List.mem_singleton.mpr rfl)
  have hfinal : (setList (setList (CacheManager.init ttl max_size) ((qk, qt, qv) :: rest))
      [(k, t, v)]).cache = rest.map entryOf ++ [(k, ⟨t, v⟩)] := by
    show (insertDict k ⟨t, v⟩
      (if (setList (CacheManager.init ttl max_size) ((qk, qt, qv) :: rest)).max_size
          ≤ (setList (CacheManager.init ttl max_size) ((qk, qt, qv) :: rest)).cache.length
        then (setList (CacheManager.init ttl max_size) ((qk, qt, qv) :: rest)).evictOldest
        else setList (CacheManager.init ttl max_size) ((qk, qt, qv) :: rest)).cache)
      = rest.map entryOf ++ [(k, ⟨t, v⟩)]
    rw [if_pos hcond, hev]
    exact insertDict_fresh k ⟨t, v⟩ (rest.map entryOf) hfreshk
  refine ⟨hfinal, ?_, ?_, ?_⟩
  · rw [hfinal]
    simp only [List.length_append, List.length_map, List.length_cons, List.length_nil]
    simp only [List.length_cons] at hlen
    omega
  · rw [hfinal]
    apply lookupKey_eq_none
    intro p hp
    rcases List.mem_append.mp hp with hp1 | hp2
    · obtain ⟨r, hr, hrp⟩ := List.mem_map.mp hp1
      subst hrp
      exact Ne.symm (hheadkeys r (List.mem_append_left _ hr))
    · rw [List.mem_singleton.mp hp2]
      exact Ne.symm (hheadkeys (k, t, v) (List.mem_append_right _ (List.mem_singleton.mpr rfl)))
  · intro p hp
    rcases List.mem_cons.mp (by simpa using hp :
        p ∈ (qk, qt, qv) :: (rest ++ [(k, t, v)])) with heq | hmem
    · rw [heq]
    · exact hheadtimes p hmem

/-- C5 counterexample: with capacity `max_size = 0`, storing
`0 + 1 = 1` distinct key leaves one entry, so the cache size exceeds
`max_size` after a `set` and the "exactly `max_size` entries" claim
fails. -/
theorem cache_capacity_zero_exceeded :
    (setList (CacheManager.init 300 0 : CacheManager Nat) [("a", 0, 1)]).cache.length = 1
    ∧ ¬ ((setList (CacheManager.init 300 0 : CacheManager Nat)
        [("a", 0, 1)]).cache.length ≤ 0) := by
  decide

/-- C5 witness: capacity 2, three distinct keys stored at times 0, 1, 2;
the oldest key `"a"` is evicted, `"b"` and `"c"` remain, size stays 2;
and a concrete in-capacity `set` stays within capacity. -/
theorem cache_capacity_eviction_witness :
    (∃ q rest, ([("a", 0, 1), ("b", 1, 2)] : List (String × Nat × Nat)) = q :: rest
      ∧ (setList (CacheManager.init 300 2)
            ([("a", 0, 1), ("b", 1, 2)] ++ [("c", 2, 3)])).cache
          = rest.map entryOf ++ [("c", ⟨2, 3⟩)]
      ∧ (setList (CacheManager.init 300 2)
            ([("a", 0, 1), ("b", 1, 2)] ++ [("c", 2, 3)])).cache.length = 2
      ∧ lookupKey q.1 (setList (CacheManager.init 300 2)
            ([("a", 0, 1), ("b", 1, 2)] ++ [("c", 2, 3)])).cache = none
      ∧ ∀ p ∈ [("a", 0, 1), ("b", 1, 2)] ++ [("c", 2, 3)], q.2.1 ≤ p.2.1)
    ∧ (CacheManager.set exCache 7 "fresh" 5).cache.length ≤ exCache.max_size :=
  ⟨cache_capacity_eviction.1 300 2 [("a", 0, 1), ("b", 1, 2)] "c" 2 3
      (by decide) (by decide) (by decide) (by decide),
   cache_capacity_eviction.2 exCache 7 "fresh" 5 (by decide) (by decide)⟩

/-! ## The FFmpeg merge service (`backend/services/ffmpeg_service.py`)

`merge_video_audio` shells out to ffmpeg through `subprocess.run` with
`timeout=self.timeout` (300 s).  `subprocess.run`'s documented timeout
semantics: when the timeout expires the child process is killed and
`TimeoutExpired` is raised after it terminates; on normal return the
child has exited.  Either way the tool process is not left alive, which
`processAliveAfterRun` records. -/

/-- What one external tool invocation does: completes within the
timeout with an exit code and captured stderr, or exceeds the timeout. -/
inductive ToolRun where
  | completed (exitCode : Nat) (stderr : String)
  | timedOut
deriving DecidableEq, Repr

/-- Whether the tool process is still alive once `subprocess.run`
returns or raises: never — it waits for exit, and on timeout it kills
the child before raising `TimeoutExpired`. -/
def processAliveAfterRun : ToolRun → Bool
  | .completed _ _ => false
  | .timedOut => false

/-- The environment one `merge_video_audio` call observes: tool
availability, the input files' existence, the tool invocation's
behavior, and the output file's state after the run. -/
structure MergeEnv where
  ffmpegAvailable : Bool
  videoExists : Bool
  audioExists : Bool
  run : ToolRun
  outputExists : Bool
  outputSize : Nat
deriving DecidableEq, Repr

/-- Result of `merge_video_audio`: the output path, or the raised typed
error (`FFmpegNotFoundError`, or `MergeError` with its message). -/
inductive MergeResult where
  | ok (path : String)
  | ffmpegNotFound
  | mergeError (msg : String)
deriving DecidableEq, Repr

/-- `FFmpegService.__init__` sets `self.timeout = 300`. -/
def ffmpegTimeout : Nat := 300

/-- `FFmpegService.merge_video_audio` (`ffmpeg_service.py`, lines
140-223): check availability, check both inputs exist (both raised
before the `try`, so not re-wrapped), run the tool.  The `MergeError`s
raised inside the `try` — non-zero exit (line 205, carrying stderr) and
missing or empty output (line 209) — are caught by the function's own
trailing `except Exception as e` handler (lines 221-223) and re-raised
as `MergeError("Merge failed: " + str(e))`, `str(e)` being the inner
message.  A timeout is caught by the earlier
`except subprocess.TimeoutExpired` handler, whose `MergeError` is
raised from the handler itself and therefore propagates un-wrapped.
Only a zero exit with an existing non-empty output returns the output
path. -/
def merge_video_audio (env : MergeEnv) (video_path audio_path output_path : String) :
    MergeResult :=
  if !env.ffmpegAvailable then .ffmpegNotFound
  else if !env.videoExists then .mergeError ("Video file not found: " ++ video_path)
  else if !env.audioExists then .mergeError ("Audio file not found: " ++ audio_path)
  else
    match env.run with
    | .timedOut =>
      .mergeError ("FFmpeg merge timed out after " ++ toString ffmpegTimeout ++ " seconds")
    | .completed code stderr =>
      if code ≠ 0 then .mergeError ("Merge failed: " ++ ("FFmpeg merge failed: " ++ stderr))
      else if !env.outputExists || env.outputSize = 0 then
        .mergeError ("Merge failed: " ++ "Output file was not created or is empty")
      else .ok output_path

/-- C7: with the tool available and both inputs present,
`merge_video_audio` returns the output path iff the tool exits zero and
the output file exists non-empty; a non-zero exit, a missing or empty
output, and a timeout each raise `MergeError` (the first two re-wrapped
by the trailing `except Exception` handler with a `"Merge failed: "`
prefix, the timeout one raised from its own handler and so
un-wrapped); and on timeout the tool process has been killed (no
output artifact is returned). -/
theorem merge_video_audio_spec (env : MergeEnv) (vp ap op : String)
    (hav : env.ffmpegAvailable = true)
    (hvid : env.videoExists = true)
    (haud : env.audioExists = true) :
    (merge_video_audio env vp ap op = .ok op ↔
      (∃ se, env.run = .completed 0 se) ∧ env.outputExists = true ∧ 0 < env.outputSize)
    ∧ (∀ code se, env.run = .completed code se → code ≠ 0 →
        merge_video_audio env vp ap op
          = .mergeError ("Merge failed: " ++ ("FFmpeg merge failed: " ++ se)))
    ∧ (∀ se, env.run = .completed 0 se →
        env.outputExists = false ∨ env.outputSize = 0 →
        merge_video_audio env vp ap op
          = .mergeError ("Merge failed: " ++ "Output file was not created or is empty"))
    ∧ (env.run = .timedOut →
        merge_video_audio env vp ap op
          = .mergeError ("FFmpeg merge timed out after " ++ toString ffmpegTimeout ++ " seconds")
        ∧ processAliveAfterRun env.run = false) := by
  refine ⟨?_, ?_, ?_, ?_⟩
  · constructor
    · intro h
      unfold merge_video_audio at h
      rw [hav, hvid, haud] at h
      simp only [Bool.not_true, Bool.false_eq_true, if_false] at h
      cases hrun : env.run with
      | timedOut => rw [hrun] at h; simp at h
      | completed code se =>
        rw [hrun] at h
        by_cases hc : code = 0
        · subst hc
          by_cases hout : (!env.outputExists || env.outputSize = 0) = true
          · simp [hout] at h
          · simp only [Bool.or_eq_true, Bool.not_eq_true', decide_eq_true_eq] at hout
            push_neg at hout
            refine ⟨⟨se, rfl⟩, ?_, ?_⟩
            · cases he : env.outputExists with
              | false => exact absurd he hout.1
              | true => rfl
            · omega
        · simp [hc] at h
    · rintro ⟨⟨se, hrun⟩, hout, hsize⟩
      unfold merge_video_audio
      rw [hav, hvid, haud, hrun, hout]
      simp
      omega
  · intro code se hrun hc
    unfold merge_video_audio
    rw [hav, hvid, haud, hrun]
    simp [hc]
  · intro se hrun hout
    unfold merge_video_audio
    rw [hav, hvid, haud, hrun]
    rcases hout with h | h <;> simp [h]
  · intro hrun
    refine ⟨?_, by cases env.run <;> rfl⟩
    unfold merge_video_audio
    rw [hav, hvid, haud, hrun]
    rfl

/-- C7 witness: concrete environments exercising the success case, the
non-zero-exit case, the empty-output case and the timeout case. -/
theorem merge_video_audio_spec_witness :
    (merge_video_audio ⟨true, true, true, .completed 0 "", true, 1024⟩ "v.mp4" "a.m4a" "out.mp4"
      = .ok "out.mp4")
    ∧ (merge_video_audio ⟨true, true, true, .completed 1 "boom", true, 1024⟩
        "v.mp4" "a.m4a" "out.mp4"
        = .mergeError ("Merge failed: " ++ ("FFmpeg merge failed: " ++ "boom")))
    ∧ (merge_video_audio ⟨true, true, true, .completed 0 "", true, 0⟩
        "v.mp4" "a.m4a" "out.mp4"
        = .mergeError ("Merge failed: " ++ "Output file was not created or is empty"))
    ∧ (merge_video_audio ⟨true, true, true, .timedOut, false, 0⟩ "v.mp4" "a.m4a" "out.mp4"
        = .mergeError ("FFmpeg merge timed out after " ++ toString ffmpegTimeout ++ " seconds")
      ∧ processAliveAfterRun (ToolRun.timedOut) = false) :=
  ⟨(merge_video_audio_spec ⟨true, true, true, .completed 0 "", true, 1024⟩
      "v.mp4" "a.m4a" "out.mp4" rfl rfl rfl).1.mpr ⟨⟨"", rfl⟩, rfl, by decide⟩,
   (merge_video_audio_spec ⟨true, true, true, .completed 1 "boom", true, 1024⟩
      "v.mp4" "a.m4a" "out.mp4" rfl rfl rfl).2.1 1 "boom" rfl (by decide),
   (merge_video_audio_spec ⟨true, true, true, .completed 0 "", true, 0⟩
      "v.mp4" "a.m4a" "out.mp4" rfl rfl rfl).2.2.1 "" rfl (Or.inr rfl),
   (merge_video_audio_spec ⟨true, true, true, .timedOut, false, 0⟩
      "v.mp4" "a.m4a" "out.mp4" rfl rfl rfl).2.2.2 rfl⟩

/-! ## The smart-download merge pipeline (`backend/main.py`, lines 1026-1102)

The merge branch downloads the two streams on a `ThreadPoolExecutor`,
collects `video_future.result()` then `audio_future.result()`, merges,
and streams the output.  The `with` block joins both workers before any
result propagates, so each `result()` call yields that transfer's final
outcome irrespective of which transfer finished first; the model
threads the finish order through untouched for exactly that reason.
Every `except` handler for this branch calls
`ffmpeg_service.cleanup_merge_dir(temp_dir)` (recursive remove) before
re-raising an `HTTPException`; on the success path the workspace is
removed only after the response has been streamed. -/

/-- Outcome of one blocking `download_stream` call: the output path, or
the `DownloadError` message (raised both when the transfer raised and
when it wrote zero bytes). -/
inductive TransferOutcome where
  | ok (path : String)
  | failed (msg : String)
deriving DecidableEq, Repr

/-- What the endpoint's caller observes: a streamed file, or an
`HTTPException` with its status code and detail message. -/
inductive HttpResult where
  | ok (path : String)
  | httpError (status : Nat) (detail : String)
deriving DecidableEq, Repr

/-- Observable trace of one merge-branch execution: the result, whether
the merge step ran, and whether the workspace directory still exists
when the call returns. -/
structure MergePipelineTrace where
  result : HttpResult
  mergeInvoked : Bool
  workspaceExistsAfter : Bool
deriving DecidableEq, Repr

/-- The merge branch of `smart_download`, entered with the workspace
already created.  `audioFinishesFirst` is the transfers' completion
order; the executor's join makes it unobservable.  The unavailable-tool
`HTTPException` is caught by the generic handler, which cleans up and
re-raises a 500; a failed video transfer surfaces its `DownloadError`
first because `video_future.result()` is collected first; the merge
runs only after both transfers succeeded, its typed errors
(`FFmpegNotFoundError`/`MergeError`) clean up and become a 500.  On
success the response streams and only afterwards is the workspace
removed, so it still exists when the call returns. -/
def smart_download_merge (ffmpegAvailable : Bool)
    (videoOutcome audioOutcome : TransferOutcome)
    (audioFinishesFirst : Bool) (mergeResult : MergeResult) :
    MergePipelineTrace :=
  let _ := audioFinishesFirst
  if !ffmpegAvailable then
    ⟨.httpError 500 "FFmpeg not available for merging", false, false⟩
  else
    match videoOutcome with
    | .failed msg => ⟨.httpError 500 msg, false, false⟩
    | .ok _ =>
      match audioOutcome with
      | .failed msg => ⟨.httpError 500 msg, false, false⟩
      | .ok _ =>
        match mergeResult with
        | .ffmpegNotFound =>
          ⟨.httpError 500 "FFmpeg is not installed or not found in PATH", true, false⟩
        | .mergeError msg => ⟨.httpError 500 msg, true, false⟩
        | .ok outPath => ⟨.ok outPath, true, true⟩

/-- C3: whenever the audio transfer fails while the video transfer
succeeds — whatever the merge tool would have done and whichever
transfer finished first — the merge branch surfaces the audio
transfer's `DownloadError` as the 500 result, never invokes the merge
step, and the workspace directory no longer exists when the call
returns. -/
theorem smart_download_audio_failure (videoPath audioErr : String)
    (order : Bool) (mergeResult : MergeResult) :
    smart_download_merge true (.ok videoPath) (.failed audioErr) order mergeResult
      = ⟨.httpError 500 audioErr, false, false⟩ := by
  rfl

/-- C3 witness: a concrete run — video transfer succeeded, audio
transfer raised, audio finished first, merge tool would have
succeeded — yields the audio `DownloadError` as a 500, no merge, and no
workspace left behind. -/
theorem smart_download_audio_failure_witness :
    smart_download_merge true (.ok "/tmp/ws/v.mp4")
        (.failed "Failed to download stream: network reset") true (.ok "/tmp/ws/out.mp4")
      = ⟨.httpError 500 "Failed to download stream: network reset", false, false⟩ :=
  smart_download_audio_failure "/tmp/ws/v.mp4"
    "Failed to download stream: network reset" true (.ok "/tmp/ws/out.mp4")

end YT

